import Mathlib

/-!
Verification of the episodic ingestion and hybrid-retrieval subsystem of the
KGmvp2 repository.

The persistent data model is given by the SQL migrations in the repository
(`documents`, `document_entities`, `processed_episodes` tables and the
`match_documents` RPC function).  Rows are embedded as Lean structures,
tables as lists of rows, and the SQL operations as pure functions on those
lists.  The pgvector cosine-distance operator is external to the repository
(it comes from the pgvector extension), so it is abstracted as an explicit
distance-function parameter; the similarity returned by `match_documents`
is `1 - distance`, exactly as in the SQL.
-/

namespace KG

/-- A row of the `documents` table, from the Phase 1 migration
(`CREATE TABLE documents`): user ownership, source tracking, content,
metadata, timestamps, and a nullable 1536-dimension embedding vector.
The `metadata` JSONB blob is kept as an opaque string.  Timestamps are
modelled as integers. -/
structure DocumentRow where
  id : String
  user_id : String
  source : String
  source_id : String
  doc_type : String
  subject : Option String
  content : String
  content_preview : Option String
  metadata : String
  source_created_at : Option Int
  created_at : Int
  updated_at : Int
  vector_embedding : Option (List ℚ)
deriving Repr, DecidableEq

/-- The WHERE clause of the `match_documents` RPC function:
`(filter_user_id IS NULL OR d.user_id = filter_user_id)` and
`(filter_source IS NULL OR d.source = filter_source)` and
`1 - (d.vector_embedding <=> query_embedding) > match_threshold`.
A row with a NULL `vector_embedding` makes the similarity comparison
evaluate to SQL NULL, which is not TRUE, so such a row is excluded. -/
def matchPred (dist : List ℚ → List ℚ → ℚ) (query_embedding : List ℚ)
    (match_threshold : ℚ) (filter_user_id filter_source : Option String)
    (d : DocumentRow) : Bool :=
  (match filter_user_id with
   | none => true
   | some u => d.user_id == u) &&
  (match filter_source with
   | none => true
   | some s => d.source == s) &&
  (match d.vector_embedding with
   | none => false
   | some e => decide (1 - dist e query_embedding > match_threshold))

/-- The sort key of `match_documents`: the cosine distance
`d.vector_embedding <=> query_embedding`.  Only rows passing `matchPred`
are ever sorted, and those always have a non-null embedding; the `none`
branch is unreachable there. -/
def distanceOf (dist : List ℚ → List ℚ → ℚ) (query_embedding : List ℚ)
    (d : DocumentRow) : ℚ :=
  match d.vector_embedding with
  | some e => dist e query_embedding
  | none => 0

/-- Insert a row into a list sorted by ascending distance (helper realising
the `ORDER BY d.vector_embedding <=> query_embedding` clause). -/
def insertByDist (dist : List ℚ → List ℚ → ℚ) (q : List ℚ) (d : DocumentRow) :
    List DocumentRow → List DocumentRow
  | [] => [d]
  | x :: xs =>
    if distanceOf dist q d ≤ distanceOf dist q x then
      d :: x :: xs
    else
      x :: insertByDist dist q d xs

/-- Sort rows by ascending cosine distance, realising the `ORDER BY` clause
of `match_documents`.  The sort is stable: rows with equal distance keep
their table order, reflecting that the SQL has no secondary sort key. -/
def sortByDist (dist : List ℚ → List ℚ → ℚ) (q : List ℚ) :
    List DocumentRow → List DocumentRow
  | [] => []
  | d :: ds => insertByDist dist q d (sortByDist dist q ds)

/-- The `match_documents` RPC function from the Phase 1 migration:
filter rows by the optional user and source filters and by
`1 - (vector_embedding <=> query_embedding) > match_threshold`, order by
ascending distance, return each row paired with its similarity
`1 - (vector_embedding <=> query_embedding)`, and truncate to
`match_count` rows (`LIMIT match_count`). -/
def match_documents (dist : List ℚ → List ℚ → ℚ) (query_embedding : List ℚ)
    (match_threshold : ℚ) (match_count : Nat)
    (filter_user_id filter_source : Option String)
    (docs : List DocumentRow) : List (DocumentRow × ℚ) :=
  ((sortByDist dist query_embedding
      (docs.filter
        (matchPred dist query_embedding match_threshold filter_user_id
          filter_source))).map
    (fun d => (d, 1 - distanceOf dist query_embedding d))).take match_count

/-- A concrete distance function for test instances: the distance of a
stored embedding to any query is the first coordinate of the stored
embedding.  (The pgvector operator is external to the repository, so the
model is parametric in the distance function; this instance pins it for
concrete evaluations.) -/
def tieDist : List ℚ → List ℚ → ℚ := fun e _ => e.headD 0

/-- Test fixture: a document row whose embedding is at distance 1/2 from
every query under `tieDist`, with an old `source_created_at`. -/
def docOlder : DocumentRow :=
  ⟨"doc-older", "user-1", "gmail", "msg-1", "email", none, "old content",
    none, "{}", some 0, 0, 0, some [1/2]⟩

/-- Test fixture: same distance as `docOlder` but a more recent
`source_created_at`, and listed after it in the table. -/
def docNewer : DocumentRow :=
  ⟨"doc-newer", "user-1", "gmail", "msg-2", "email", none, "new content",
    none, "{}", some 100, 0, 0, some [1/2]⟩

/-- Test fixture: a document row whose similarity under `tieDist` is
exactly 1/2 for every query. -/
def docAtThreshold : DocumentRow :=
  ⟨"doc-at-threshold", "user-1", "gmail", "msg-3", "email", none, "content",
    none, "{}", some 0, 0, 0, some [1/2]⟩

/-- Test fixture: a qualifying document owned by a second user, used to
show that search without a user filter is not scoped to one user. -/
def docOtherUser : DocumentRow :=
  ⟨"doc-other-user", "user-2", "slack", "msg-4", "slack_message", none,
    "other content", none, "{}", some 50, 0, 0, some [1/4]⟩

/-- A row of the `processed_episodes` table (migration
`003_create_processed_episodes.sql`): the idempotency ledger, with the
unique constraint `unique_episode UNIQUE(user_id, source, source_id)`. -/
structure ProcessedEpisodeRow where
  user_id : String
  source : String
  source_id : String
  episode_uuid : Option String
  processed_at : Int
deriving Repr, DecidableEq

/-- Whether a ledger row carries the given `(user_id, source, source_id)`
triple, the key of the `unique_episode` constraint. -/
def sameEpisodeTriple (u s sid : String) (r : ProcessedEpisodeRow) : Bool :=
  r.user_id == u && r.source == s && r.source_id == sid

/-- Result of an attempt to claim an event in the idempotency ledger. -/
inductive MarkResult where
  | inserted
  | alreadyClaimed
deriving Repr, DecidableEq

/-- Modelled from the spec: `markProcessed` (the application half lives in
`services/graphiti_service.py`, which is not in the sources; only the
`unique_episode` constraint of migration 003 is).  Per the spec, it
inserts a ledger row, and a conflict with an existing
`(userId, source, sourceId)` triple is not an error: it returns
`alreadyClaimed` and leaves the table unchanged, so the caller aborts
further processing of that event. -/
def mark_episode_as_processed (u s sid : String) (ep : Option String)
    (t : Int) (tbl : List ProcessedEpisodeRow) :
    MarkResult × List ProcessedEpisodeRow :=
  if tbl.any (sameEpisodeTriple u s sid) then
    (.alreadyClaimed, tbl)
  else
    (.inserted, ⟨u, s, sid, ep, t⟩ :: tbl)

/-- The `unique_episode` invariant: no two ledger rows share the
`(user_id, source, source_id)` triple. -/
def UniqueEpisodes (tbl : List ProcessedEpisodeRow) : Prop :=
  List.Pairwise
    (fun r1 r2 =>
      ¬(r1.user_id = r2.user_id ∧ r1.source = r2.source ∧
        r1.source_id = r2.source_id))
    tbl

/-- Whether two document rows share the `(source, source_id, user_id)`
triple of the `unique_source_document` constraint on `documents`. -/
def sameSourceDocument (d1 d2 : DocumentRow) : Bool :=
  d1.source == d2.source && d1.source_id == d2.source_id &&
    d1.user_id == d2.user_id

/-- Result of a Document Store `store` call. -/
inductive StoreResult where
  | stored
  | duplicateDocument
deriving Repr, DecidableEq

/-- Modelled from the spec: `store(doc)` (the application half,
`document_store.store_email` in `services/document_store.py`, is not in
the sources; only the `unique_source_document` constraint of the Phase 1
migration is).  Inserting a document whose `(source, source_id, user_id)`
triple already exists violates the unique constraint; per the spec this
is detected and non-fatal (`DuplicateDocumentError`), leaving the stored
row unchanged. -/
def store_document (d : DocumentRow) (tbl : List DocumentRow) :
    StoreResult × List DocumentRow :=
  if tbl.any (sameSourceDocument d) then
    (.duplicateDocument, tbl)
  else
    (.stored, d :: tbl)

/-- A row of the `document_entities` table (Phase 1 migration): the bridge
between stored documents and externally-minted entity identifiers, with
the unique constraint `unique_document_entity UNIQUE(document_id,
entity_uuid)` and the cascade foreign key
`document_id REFERENCES documents(id) ON DELETE CASCADE`.  The DDL
declares `mention_count INT DEFAULT 1` and
`relevance_score FLOAT DEFAULT 1.0` with no CHECK constraint. -/
structure DocumentEntityRow where
  document_id : String
  entity_uuid : String
  entity_type : String
  entity_name : String
  mention_count : Int
  relevance_score : ℚ
  created_at : Int
deriving Repr, DecidableEq

/-- Whether a bridge row carries the given `(document_id, entity_uuid)`
pair, the key of the `unique_document_entity` constraint. -/
def sameLinkPair (docId euuid : String) (r : DocumentEntityRow) : Bool :=
  r.document_id == docId && r.entity_uuid == euuid

/-- Modelled from the spec: `link(documentId, entity, mentionCount,
relevanceScore)` (`document_store.link_document_to_entity` in
`services/document_store.py` is not in the sources; only the
`unique_document_entity` constraint is).  Per the spec it upserts a
bridge row; when the `(documentId, entityId)` pair already exists it
merges by taking `max(mentionCount)` and `max(relevanceScore)`, never
overwriting with a lower-confidence value. -/
def link_document_to_entity (docId euuid etype ename : String)
    (mc : Int) (rs : ℚ) (t : Int) (tbl : List DocumentEntityRow) :
    List DocumentEntityRow :=
  if tbl.any (sameLinkPair docId euuid) then
    tbl.map (fun r =>
      if sameLinkPair docId euuid r then
        { r with
          mention_count := max r.mention_count mc,
          relevance_score := max r.relevance_score rs }
      else r)
  else
    ⟨docId, euuid, etype, ename, mc, rs, t⟩ :: tbl

/-- A direct INSERT into `document_entities` checked against exactly the
constraints the DDL declares: the foreign key to `documents(id)` and the
`unique_document_entity` constraint.  The DDL declares NO CHECK
constraint on `relevance_score` or `mention_count`, so no range check
appears here.  Returns `none` when a declared constraint rejects the
row. -/
def document_entities_insert (row : DocumentEntityRow)
    (docs : List DocumentRow) (tbl : List DocumentEntityRow) :
    Option (List DocumentEntityRow) :=
  if docs.any (fun d => d.id == row.document_id) &&
      !(tbl.any (sameLinkPair row.document_id row.entity_uuid)) then
    some (row :: tbl)
  else
    none

/-- Combined state of the two document-side tables. -/
structure DBState where
  documents : List DocumentRow
  document_entities : List DocumentEntityRow
deriving Repr, DecidableEq

/-- The mutations the schema admits on the two tables: inserting a
document (checked against the primary key and `unique_source_document`),
inserting a bridge row (checked against the declared constraints), and
deleting a document, which cascades to its bridge rows per
`ON DELETE CASCADE`.  No operation other than the cascade deletes bridge
rows. -/
inductive DBOp where
  | insertDocument (d : DocumentRow)
  | insertLink (r : DocumentEntityRow)
  | deleteDocument (docId : String)

/-- Apply one schema mutation; rejected inserts leave the state
unchanged. -/
def applyOp (st : DBState) : DBOp → DBState
  | .insertDocument d =>
    if st.documents.any (fun x => x.id == d.id) ||
        st.documents.any (sameSourceDocument d) then
      st
    else
      { st with documents := d :: st.documents }
  | .insertLink r =>
    match document_entities_insert r st.documents st.document_entities with
    | some tbl => { st with document_entities := tbl }
    | none => st
  | .deleteDocument docId =>
    { documents := st.documents.filter (fun d => !(d.id == docId)),
      document_entities :=
        st.document_entities.filter
          (fun r => !(r.document_id == docId)) }

/-- Run a sequence of schema mutations from the empty database. -/
def runOps (ops : List DBOp) : DBState :=
  ops.foldl applyOp ⟨[], []⟩

/-- Referential integrity of the bridge: every `document_entities` row
points at an existing document. -/
def RefIntegrity (st : DBState) : Prop :=
  ∀ r ∈ st.document_entities, ∃ d ∈ st.documents, d.id = r.document_id

/-- The `update_updated_at_column` trigger function of the Phase 1
migration: `NEW.updated_at = NOW(); RETURN NEW;` — it overwrites only the
`updated_at` field of the row being written. -/
def update_updated_at_column (new_row : DocumentRow) (now : Int) :
    DocumentRow :=
  { new_row with updated_at := now }

/-- An UPDATE statement on `documents`: every row matched by the WHERE
predicate has the SET clause applied and then passes through the
`update_documents_updated_at` BEFORE UPDATE trigger; unmatched rows are
untouched. -/
def update_documents (pred : DocumentRow → Bool)
    (set_clause : DocumentRow → DocumentRow) (now : Int)
    (tbl : List DocumentRow) : List DocumentRow :=
  tbl.map (fun d =>
    if pred d then update_updated_at_column (set_clause d) now else d)

/-- Test fixture: a ledger row claiming one Gmail message. -/
def ledgerRow1 : ProcessedEpisodeRow :=
  ⟨"user-1", "gmail", "msg-1", some "ep-1", 0⟩

/-- Test fixture: a document for uniqueness tests. -/
def emailDocA : DocumentRow :=
  ⟨"doc-a", "user-1", "gmail", "msg-9", "email", some "subj", "body A",
    none, "{}", some 10, 0, 0, none⟩

/-- Test fixture: a second document carrying the same
`(source, source_id, user_id)` triple as `emailDocA`. -/
def emailDocB : DocumentRow :=
  ⟨"doc-b", "user-1", "gmail", "msg-9", "email", some "subj", "body B",
    none, "{}", some 10, 1, 1, none⟩

/-- Test fixture: the document referenced by the bridge rows below. -/
def fkDoc : DocumentRow :=
  ⟨"doc-1", "user-1", "gmail", "msg-5", "email", none, "content", none,
    "{}", none, 0, 0, none⟩

/-- Test fixture: a bridge row whose relevance score 1.5 lies outside the
documented 0.0-1.0 range. -/
def outOfRangeLink : DocumentEntityRow :=
  ⟨"doc-1", "ent-1", "Company", "Acme Corp", 1, 3/2, 0⟩

/-- Test fixture: a bridge row with mention count 0, below the documented
minimum of 1. -/
def zeroMentionLink : DocumentEntityRow :=
  ⟨"doc-1", "ent-2", "Company", "Initech", 0, 1, 0⟩

/-- Test fixture: a well-formed bridge row for cascade tests. -/
def bridgeLink1 : DocumentEntityRow :=
  ⟨"doc-1", "ent-1", "Company", "Acme Corp", 1, 2/5, 0⟩

/-- The `(userId, source, sourceId)` identity triple of one raw event. -/
abbrev EventTriple := String × String × String

/-- The phases of the webhook ingestion handler as shown in the
repository's own documentation of `gmail_webhook`: first check
`processed_episodes` (`has_episode_been_processed`), then on a fresh
event store the document, call extraction (`process_email`), and finally
mark the event processed (`mark_episode_as_processed`). -/
inductive Phase where
  | check
  | store
  | extract
  | mark
  | done
deriving Repr, DecidableEq

/-- Program counter and abort flag of one in-flight handler invocation.
`aborted` records that the duplicate check exited early. -/
structure HandlerCtl where
  phase : Phase
  aborted : Bool
deriving Repr, DecidableEq

/-- The shared durable state touched by ingestion, keyed by event triple:
the `processed_episodes` ledger, the `documents` rows, and a counter of
extraction-engine calls. -/
structure IngestState where
  processed_episodes : List EventTriple
  documents : List EventTriple
  extraction_calls : Nat
deriving Repr, DecidableEq

/-- Insert under a unique constraint on the triple: a conflicting insert
is rejected by the database, leaving exactly the existing row. -/
def insertUniqueTriple (e : EventTriple) (l : List EventTriple) :
    List EventTriple :=
  if e ∈ l then l else e :: l

/-- One atomic step of the webhook handler for event `e`.  The check and
the final mark are separate steps with the store and the extraction call
in between — the check-then-act shape of the documented handler — while
each individual table write is atomic under its unique constraint. -/
def handlerStep (e : EventTriple) (st : IngestState) (h : HandlerCtl) :
    IngestState × HandlerCtl :=
  match h.phase with
  | Phase.check =>
    if e ∈ st.processed_episodes then
      (st, ⟨Phase.done, true⟩)
    else
      (st, ⟨Phase.store, h.aborted⟩)
  | Phase.store =>
    ({ st with documents := insertUniqueTriple e st.documents },
      ⟨Phase.extract, h.aborted⟩)
  | Phase.extract =>
    ({ st with extraction_calls := st.extraction_calls + 1 },
      ⟨Phase.mark, h.aborted⟩)
  | Phase.mark =>
    ({ st with
        processed_episodes := insertUniqueTriple e st.processed_episodes },
      ⟨Phase.done, h.aborted⟩)
  | Phase.done => (st, h)

/-- Two concurrent handler invocations for the same event (a webhook
retry), with their shared state. -/
structure ConcState where
  st : IngestState
  h1 : HandlerCtl
  h2 : HandlerCtl
deriving Repr, DecidableEq

/-- Let the scheduled handler (`true` = first, `false` = second) take one
atomic step. -/
def concStep (e : EventTriple) (c : ConcState) (who : Bool) : ConcState :=
  if who then
    ⟨(handlerStep e c.st c.h1).1, (handlerStep e c.st c.h1).2, c.h2⟩
  else
    ⟨(handlerStep e c.st c.h2).1, c.h1, (handlerStep e c.st c.h2).2⟩

/-- Run two concurrent deliveries of event `e` from the empty database
under an arbitrary interleaving. -/
def runConc (e : EventTriple) (sched : List Bool) : ConcState :=
  sched.foldl (concStep e) ⟨⟨[], [], 0⟩, ⟨Phase.check, false⟩,
    ⟨Phase.check, false⟩⟩

/-- Run one handler for `n` consecutive atomic steps. -/
def handlerRun (e : EventTriple) :
    Nat → IngestState × HandlerCtl → IngestState × HandlerCtl
  | 0, p => p
  | n + 1, p => handlerRun e n (handlerStep e p.1 p.2)

/-- One complete, uninterleaved `ingest(e)` call: a fresh handler run to
completion (its four steps). -/
def ingest (e : EventTriple) (st : IngestState) : IngestState :=
  (handlerRun e 4 (st, ⟨Phase.check, false⟩)).1

/-- `n` sequential `ingest(e)` calls starting from the empty database. -/
def ingestN (e : EventTriple) : Nat → IngestState
  | 0 => ⟨[], [], 0⟩
  | n + 1 => ingest e (ingestN e n)

/-- How many extraction calls a handler in the given control state has
performed (it increments the counter when leaving `extract`). -/
def ExtractCount (h : HandlerCtl) : Nat :=
  if h.aborted then 0
  else
    match h.phase with
    | Phase.mark => 1
    | Phase.done => 1
    | _ => 0

/-- Per-handler invariant of the concurrent ingestion run for event `e`:
an aborted handler saw the event already claimed, a handler past the
store step has the document row in place, and a completed non-aborted
handler has also claimed the ledger row. -/
def HandlerInv (e : EventTriple) (st : IngestState) (h : HandlerCtl) :
    Prop :=
  (h.aborted = true → h.phase = Phase.done ∧
    st.processed_episodes = [e]) ∧
  (h.phase = Phase.extract → st.documents = [e]) ∧
  (h.phase = Phase.mark → st.documents = [e]) ∧
  (h.phase = Phase.done → h.aborted = false →
    st.documents = [e] ∧ st.processed_episodes = [e])

/-- Joint invariant of two concurrent handlers for the same event `e`:
each triple-keyed table is empty or holds exactly the one row for `e`, a
ledger row implies the document row (the mark step runs last), both
handler invariants hold, and the extraction counter equals the handlers'
combined extraction contributions. -/
def PairInv (e : EventTriple) (st : IngestState) (hA hB : HandlerCtl) :
    Prop :=
  (st.documents = [] ∨ st.documents = [e]) ∧
  (st.processed_episodes = [] ∨ st.processed_episodes = [e]) ∧
  (st.processed_episodes = [e] → st.documents = [e]) ∧
  HandlerInv e st hA ∧ HandlerInv e st hB ∧
  st.extraction_calls = ExtractCount hA + ExtractCount hB

/-- Test fixture: a duplicated Gmail webhook event. -/
def dupEvent : EventTriple := ("user-1", "gmail", "msg-1")

/-- Test fixture: an interleaving in which both deliveries pass the
duplicate check before either marks the event processed. -/
def raceSchedule : List Bool :=
  [true, false, true, true, true, false, false, false]

theorem mem_insertByDist {dist q d x l} :
    x ∈ insertByDist dist q d l ↔ x = d ∨ x ∈ l := by
  induction l with
  | nil => simp [insertByDist]
  | cons y ys ih =>
    by_cases h : distanceOf dist q d ≤ distanceOf dist q y
    · simp [insertByDist, h]
    · simp only [insertByDist, if_neg h, List.mem_cons, ih]
      tauto

theorem mem_sortByDist {dist q x l} :
    x ∈ sortByDist dist q l ↔ x ∈ l := by
  induction l with
  | nil => simp [sortByDist]
  | cons y ys ih => simp [sortByDist, mem_insertByDist, ih]

theorem length_insertByDist {dist q d l} :
    (insertByDist dist q d l).length = l.length + 1 := by
  induction l with
  | nil => simp [insertByDist]
  | cons y ys ih =>
    by_cases h : distanceOf dist q d ≤ distanceOf dist q y
    · simp [insertByDist, h]
    · simp [insertByDist, h, ih]

theorem length_sortByDist {dist q l} :
    (sortByDist dist q l).length = l.length := by
  induction l with
  | nil => rfl
  | cons y ys ih => simp [sortByDist, length_insertByDist, ih]

theorem sorted_insertByDist {dist q d l}
    (h : List.Pairwise
      (fun a b => distanceOf dist q a ≤ distanceOf dist q b) l) :
    List.Pairwise (fun a b => distanceOf dist q a ≤ distanceOf dist q b)
      (insertByDist dist q d l) := by
  induction l with
  | nil => simp [insertByDist]
  | cons y ys ih =>
    rcases List.pairwise_cons.mp h with ⟨hy, hys⟩
    by_cases hle : distanceOf dist q d ≤ distanceOf dist q y
    · rw [insertByDist, if_pos hle]
      refine List.pairwise_cons.mpr ⟨?_, h⟩
      intro z hz
      rcases List.mem_cons.mp hz with rfl | hz
      · exact hle
      · exact le_trans hle (hy z hz)
    · rw [insertByDist, if_neg hle]
      refine List.pairwise_cons.mpr ⟨?_, ih hys⟩
      intro z hz
      rcases mem_insertByDist.mp hz with rfl | hz
      · exact le_of_not_le hle
      · exact hy z hz

theorem sorted_sortByDist {dist q l} :
    List.Pairwise (fun a b => distanceOf dist q a ≤ distanceOf dist q b)
      (sortByDist dist q l) := by
  induction l with
  | nil => simp [sortByDist]
  | cons y ys ih => exact sorted_insertByDist ih

theorem matchPred_embedding {dist q t fu fs d}
    (h : matchPred dist q t fu fs d = true) :
    ∃ e, d.vector_embedding = some e ∧ 1 - dist e q > t := by
  unfold matchPred at h
  simp only [Bool.and_eq_true] at h
  rcases h with ⟨-, h2⟩
  cases he : d.vector_embedding with
  | none => rw [he] at h2; exact absurd h2 (by simp)
  | some e => rw [he] at h2; exact ⟨e, rfl, of_decide_eq_true h2⟩

theorem matchPred_none_none {dist q t d} :
    matchPred dist q t none none d = true ↔
      ∃ e, d.vector_embedding = some e ∧ 1 - dist e q > t := by
  constructor
  · exact matchPred_embedding
  · rintro ⟨e, he, hsim⟩
    unfold matchPred
    rw [he]
    simpa using hsim

theorem distanceOf_eq {dist q d e} (he : d.vector_embedding = some e) :
    distanceOf dist q d = dist e q := by
  unfold distanceOf
  rw [he]

theorem mem_match_documents {dist q t k fu fs docs p}
    (hp : p ∈ match_documents dist q t k fu fs docs) :
    matchPred dist q t fu fs p.1 = true ∧ p.1 ∈ docs ∧
      p.2 = 1 - distanceOf dist q p.1 := by
  unfold match_documents at hp
  have hp2 := List.mem_of_mem_take hp
  rcases List.mem_map.mp hp2 with ⟨d, hd, rfl⟩
  have hd2 := mem_sortByDist.mp hd
  rcases List.mem_filter.mp hd2 with ⟨hmem, hpred⟩
  exact ⟨hpred, hmem, rfl⟩

theorem mem_match_documents_of {dist q t k fu fs docs d}
    (hd : d ∈ docs) (hpred : matchPred dist q t fu fs d = true)
    (hlen : (docs.filter (matchPred dist q t fu fs)).length ≤ k) :
    (d, 1 - distanceOf dist q d) ∈ match_documents dist q t k fu fs docs := by
  unfold match_documents
  have hfil : d ∈ docs.filter (matchPred dist q t fu fs) :=
    List.mem_filter.mpr ⟨hd, hpred⟩
  have hsor : d ∈ sortByDist dist q (docs.filter (matchPred dist q t fu fs)) :=
    mem_sortByDist.mpr hfil
  have hmap :
      (d, 1 - distanceOf dist q d) ∈
        (sortByDist dist q
            (docs.filter (matchPred dist q t fu fs))).map
          (fun d => (d, 1 - distanceOf dist q d)) :=
    List.mem_map.mpr ⟨d, hsor, rfl⟩
  rw [List.take_of_length_le]
  · exact hmap
  · rw [List.length_map, length_sortByDist]
    exact hlen

/-- C2.  Document Store search computes similarity as `1 - cosineDistance`
and returns results ordered by non-increasing similarity (equivalently,
non-decreasing cosine distance).  The similarity of every returned row is
`1 - dist e q` for its non-null embedding `e`.  The ordering is not strict
and ties are NOT broken by more-recent `source_created_at` first: the SQL
`ORDER BY` clause has no secondary key, so rows with equal distance are
returned in table order (see the counterexample). -/
theorem c2_search_ordering (dist : List ℚ → List ℚ → ℚ) (q : List ℚ)
    (t : ℚ) (k : Nat) (fu fs : Option String) (docs : List DocumentRow) :
    List.Pairwise (fun a b => b.2 ≤ a.2)
      (match_documents dist q t k fu fs docs) ∧
    ∀ p ∈ match_documents dist q t k fu fs docs,
      ∃ e, p.1.vector_embedding = some e ∧ p.2 = 1 - dist e q := by
  constructor
  · unfold match_documents
    refine List.Pairwise.sublist (List.take_sublist _ _) ?_
    refine List.Pairwise.map _ ?_ sorted_sortByDist
    intro a b hab
    exact sub_le_sub_left hab 1
  · intro p hp
    rcases mem_match_documents hp with ⟨hpred, -, hsim⟩
    rcases matchPred_embedding hpred with ⟨e, he, -⟩
    refine ⟨e, he, ?_⟩
    rw [hsim, distanceOf_eq he]

/-- Witness for C2 at a concrete two-row table: the result is sorted by
non-increasing similarity and the first returned row's similarity is
`1 - dist e q` for its embedding `e`. -/
theorem c2_search_ordering_witness :
    List.Pairwise (fun a b => b.2 ≤ a.2)
      (match_documents tieDist [0] 0 10 none none [docOlder, docNewer]) ∧
    ∃ e, docOlder.vector_embedding = some e ∧
      ((1 : ℚ)/2) = 1 - tieDist e [0] :=
  ⟨(c2_search_ordering tieDist [0] 0 10 none none [docOlder, docNewer]).1,
   (c2_search_ordering tieDist [0] 0 10 none none [docOlder, docNewer]).2
     (docOlder, 1/2) (by norm_num [match_documents, sortByDist, insertByDist,
       matchPred, distanceOf, docOlder, docNewer, tieDist])⟩

/-- Counterexample to C2 as stated: a concrete distance function and two
rows with equal similarity, where the row with the OLDER
`source_created_at` is returned first.  This refutes both the strictness
of the descending order and the claimed recency tie-break. -/
theorem c2_counterexample :
    match_documents tieDist [0] 0 10 none none [docOlder, docNewer] =
      [(docOlder, 1/2), (docNewer, 1/2)] ∧
    docOlder.source_created_at = some 0 ∧
    docNewer.source_created_at = some 100 := by
  refine ⟨?_, rfl, rfl⟩
  norm_num [match_documents, sortByDist, insertByDist, matchPred,
    distanceOf, docOlder, docNewer, tieDist]

/-- C3.  With no user or source filter, Document Store search returns only
documents whose embedding is non-null and whose similarity is STRICTLY
greater than `match_threshold` (the SQL uses `>`, so a document whose
similarity equals the threshold is excluded — see the counterexample);
at most `match_count` results are returned; and when the number of
qualifying documents is at most `match_count`, every qualifying document
is returned with its similarity. -/
theorem c3_threshold_filter (dist : List ℚ → List ℚ → ℚ) (q : List ℚ)
    (t : ℚ) (k : Nat) (docs : List DocumentRow) :
    (match_documents dist q t k none none docs).length ≤ k ∧
    (∀ p ∈ match_documents dist q t k none none docs,
      ∃ e, p.1.vector_embedding = some e ∧ 1 - dist e q > t) ∧
    (∀ d ∈ docs, ∀ e, d.vector_embedding = some e → 1 - dist e q > t →
      (docs.filter (matchPred dist q t none none)).length ≤ k →
      (d, 1 - dist e q) ∈ match_documents dist q t k none none docs) := by
  refine ⟨?_, ?_, ?_⟩
  · unfold match_documents
    exact List.length_take_le _ _
  · intro p hp
    rcases mem_match_documents hp with ⟨hpred, -, -⟩
    exact matchPred_embedding hpred
  · intro d hd e he hsim hlen
    have hpred : matchPred dist q t none none d = true :=
      matchPred_none_none.mpr ⟨e, he, hsim⟩
    have := mem_match_documents_of hd hpred hlen
    rwa [distanceOf_eq he] at this

/-- Witness for C3 at a concrete one-row table: the qualifying document is
returned together with its similarity, the result respects the limit, and
every returned row qualifies. -/
theorem c3_threshold_filter_witness :
    (match_documents tieDist [0] 0 10 none none [docOlder]).length ≤ 10 ∧
    (docOlder, 1 - tieDist [1/2] [0]) ∈
      match_documents tieDist [0] 0 10 none none [docOlder] :=
  ⟨(c3_threshold_filter tieDist [0] 0 10 [docOlder]).1,
   (c3_threshold_filter tieDist [0] 0 10 [docOlder]).2.2 docOlder
     (by simp) [1/2] rfl (by norm_num [tieDist])
     (by norm_num [matchPred, docOlder, tieDist])⟩

/-- Counterexample to C3 as stated: a document whose similarity is exactly
equal to the threshold is NOT returned, because the SQL filter is the
strict comparison `1 - (vector_embedding <=> query) > match_threshold`. -/
theorem c3_counterexample :
    match_documents tieDist [0] (1/2) 10 none none [docAtThreshold] = [] ∧
    ∃ e, docAtThreshold.vector_embedding = some e ∧
      1 - tieDist e [0] = 1/2 := by
  constructor
  · norm_num [match_documents, sortByDist, matchPred, docAtThreshold,
      tieDist]
  · exact ⟨[1/2], rfl, by norm_num [tieDist]⟩

/-- C10.  When `filter_user_id` is NULL the result set is not restricted
by user, and when `filter_source` is NULL it is not restricted by source:
the row predicate then depends only on the embedding and the similarity
threshold, so a qualifying document of any user is returned (when the
qualifying set fits in `match_count`).  Scoping happens only when a
filter is supplied: with `filter_user_id = some u` every returned row has
`user_id = u`, and with `filter_source = some s` every returned row has
`source = s`. -/
theorem c10_null_filter_no_scoping (dist : List ℚ → List ℚ → ℚ)
    (q : List ℚ) (t : ℚ) (k : Nat) (docs : List DocumentRow) :
    (∀ d, matchPred dist q t none none d = true ↔
      ∃ e, d.vector_embedding = some e ∧ 1 - dist e q > t) ∧
    (∀ d ∈ docs, matchPred dist q t none none d = true →
      (docs.filter (matchPred dist q t none none)).length ≤ k →
      d ∈ (match_documents dist q t k none none docs).map Prod.fst) ∧
    (∀ u fs p, p ∈ match_documents dist q t k (some u) fs docs →
      p.1.user_id = u) ∧
    (∀ s fu p, p ∈ match_documents dist q t k fu (some s) docs →
      p.1.source = s) := by
  refine ⟨fun d => matchPred_none_none, ?_, ?_, ?_⟩
  · intro d hd hpred hlen
    exact List.mem_map.mpr ⟨_, mem_match_documents_of hd hpred hlen, rfl⟩
  · intro u fs p hp
    rcases mem_match_documents hp with ⟨hpred, -, -⟩
    unfold matchPred at hpred
    simp only [Bool.and_eq_true] at hpred
    exact eq_of_beq hpred.1.1
  · intro s fu p hp
    rcases mem_match_documents hp with ⟨hpred, -, -⟩
    unfold matchPred at hpred
    simp only [Bool.and_eq_true] at hpred
    exact eq_of_beq hpred.1.2

/-- Witness for C10 at a concrete table holding documents of two different
users: with no filters both users' documents are returned, and with a
user filter every returned row belongs to that user. -/
theorem c10_null_filter_no_scoping_witness :
    docOlder ∈
      (match_documents tieDist [0] 0 10 none none
        [docOlder, docOtherUser]).map Prod.fst ∧
    docOtherUser ∈
      (match_documents tieDist [0] 0 10 none none
        [docOlder, docOtherUser]).map Prod.fst ∧
    (docOlder, (1 : ℚ)/2).1.user_id = "user-1" :=
  ⟨(c10_null_filter_no_scoping tieDist [0] 0 10 [docOlder, docOtherUser]).2.1
      docOlder (by simp)
      (by norm_num [matchPred, docOlder, tieDist])
      (by norm_num [matchPred, docOlder, docOtherUser, tieDist]),
   (c10_null_filter_no_scoping tieDist [0] 0 10 [docOlder, docOtherUser]).2.1
      docOtherUser (by simp)
      (by norm_num [matchPred, docOtherUser, tieDist])
      (by norm_num [matchPred, docOlder, docOtherUser, tieDist]),
   (c10_null_filter_no_scoping tieDist [0] 0 10
       [docOlder, docOtherUser]).2.2.1 "user-1" none (docOlder, 1/2)
     (by norm_num [match_documents, sortByDist, insertByDist, matchPred,
       distanceOf, docOlder, docOtherUser, tieDist])⟩

/-- C4.  The `(userId, source, sourceId)` triple is unique across the
idempotency ledger: `markProcessed` preserves the `unique_episode`
invariant, and calling it for a triple that already exists is not an
error — it returns `alreadyClaimed` with the table unchanged, so the
caller aborts further processing; for a fresh triple it inserts exactly
one new row. -/
theorem c4_ledger_unique_triple (u s sid : String) (ep : Option String)
    (t : Int) (tbl : List ProcessedEpisodeRow)
    (huniq : UniqueEpisodes tbl) :
    UniqueEpisodes (mark_episode_as_processed u s sid ep t tbl).2 ∧
    (tbl.any (sameEpisodeTriple u s sid) = true →
      (mark_episode_as_processed u s sid ep t tbl).1 =
        MarkResult.alreadyClaimed ∧
      (mark_episode_as_processed u s sid ep t tbl).2 = tbl) ∧
    (tbl.any (sameEpisodeTriple u s sid) = false →
      (mark_episode_as_processed u s sid ep t tbl).1 =
        MarkResult.inserted ∧
      (mark_episode_as_processed u s sid ep t tbl).2 =
        ⟨u, s, sid, ep, t⟩ :: tbl) := by
  by_cases h : tbl.any (sameEpisodeTriple u s sid) = true
  · refine ⟨?_, fun _ => ?_, fun h2 => absurd h (by simp [h2])⟩
    · simpa [mark_episode_as_processed, h] using huniq
    · simp [mark_episode_as_processed, h]
  · have hfalse : tbl.any (sameEpisodeTriple u s sid) = false := by
      simpa using h
    refine ⟨?_, fun h2 => absurd h2 h, fun _ => ?_⟩
    · rw [mark_episode_as_processed, if_neg (by simp [hfalse])]
      refine List.pairwise_cons.mpr ⟨?_, huniq⟩
      intro r hr
      have hne := List.any_eq_false.mp hfalse r hr
      simp only [sameEpisodeTriple, Bool.and_eq_true, beq_iff_eq] at hne
      rintro ⟨ha, hb, hc⟩
      exact hne ⟨⟨ha.symm, hb.symm⟩, hc.symm⟩
    · simp [mark_episode_as_processed, hfalse]

/-- Witness for C4: marking the triple of `ledgerRow1` a second time
returns `alreadyClaimed` and leaves the ledger unchanged, and the unique
invariant holds afterwards. -/
theorem c4_ledger_unique_triple_witness :
    UniqueEpisodes
      (mark_episode_as_processed "user-1" "gmail" "msg-1" (some "ep-2") 5
        [ledgerRow1]).2 ∧
    (mark_episode_as_processed "user-1" "gmail" "msg-1" (some "ep-2") 5
        [ledgerRow1]).1 = MarkResult.alreadyClaimed ∧
    (mark_episode_as_processed "user-1" "gmail" "msg-1" (some "ep-2") 5
        [ledgerRow1]).2 = [ledgerRow1] := by
  have h := c4_ledger_unique_triple "user-1" "gmail" "msg-1" (some "ep-2")
    5 [ledgerRow1] (by simp [UniqueEpisodes])
  exact ⟨h.1, h.2.1 (by simp [sameEpisodeTriple, ledgerRow1])⟩

/-- C5.  Storing two documents with an identical
`(source, sourceId, userId)` triple yields exactly one stored row: the
first call stores its row, the second is detected as a duplicate
(`unique_source_document` conflict), is non-fatal (it returns a
`duplicateDocument` result instead of writing), and leaves the first
stored row unchanged. -/
theorem c5_document_uniqueness (d1 d2 : DocumentRow)
    (tbl : List DocumentRow)
    (hsrc : d2.source = d1.source) (hsid : d2.source_id = d1.source_id)
    (huid : d2.user_id = d1.user_id)
    (habs : tbl.any (sameSourceDocument d1) = false) :
    (store_document d1 tbl).1 = StoreResult.stored ∧
    (store_document d1 tbl).2 = d1 :: tbl ∧
    (store_document d2 (store_document d1 tbl).2).1 =
      StoreResult.duplicateDocument ∧
    (store_document d2 (store_document d1 tbl).2).2 = d1 :: tbl ∧
    ((store_document d2 (store_document d1 tbl).2).2.filter
      (sameSourceDocument d1)).length = 1 := by
  have habs2 : tbl.any (sameSourceDocument d2) = false := by
    rw [List.any_eq_false] at habs ⊢
    intro r hr
    have := habs r hr
    simp only [sameSourceDocument, hsrc, hsid, huid] at *
    exact this
  have h1 : store_document d1 tbl = (StoreResult.stored, d1 :: tbl) := by
    simp [store_document, habs]
  have hdup : sameSourceDocument d2 d1 = true := by
    simp [sameSourceDocument, hsrc, hsid, huid]
  have h2 : store_document d2 (d1 :: tbl) =
      (StoreResult.duplicateDocument, d1 :: tbl) := by
    simp [store_document, hdup]
  have hself : sameSourceDocument d1 d1 = true := by
    simp [sameSourceDocument]
  have hnil : tbl.filter (sameSourceDocument d1) = [] :=
    List.filter_eq_nil_iff.mpr (by
      intro r hr
      simp [List.any_eq_false.mp habs r hr])
  have e2 : (store_document d1 tbl).2 = d1 :: tbl := by rw [h1]
  refine ⟨by rw [h1], e2, by rw [e2, h2], by rw [e2, h2], ?_⟩
  rw [e2, h2]
  simp [List.filter_cons, hself, hnil]

/-- Witness for C5: storing `emailDocA` then `emailDocB` (same triple)
into the empty table stores exactly one row, and the duplicate is
detected without modifying the table. -/
theorem c5_document_uniqueness_witness :
    (store_document emailDocA []).1 = StoreResult.stored ∧
    (store_document emailDocB
        (store_document emailDocA []).2).1 =
      StoreResult.duplicateDocument ∧
    (store_document emailDocB
        (store_document emailDocA []).2).2 = [emailDocA] := by
  have h := c5_document_uniqueness emailDocA emailDocB [] rfl rfl rfl rfl
  exact ⟨h.1, h.2.2.1, h.2.2.2.1⟩

/-- C6.  Linking the same `(documentId, entityId)` pair twice yields
exactly one bridge row whose `mention_count` is the maximum of the two
supplied counts and whose `relevance_score` is the maximum of the two
supplied scores; since each stored value is a maximum it is never below
either supplied value, so a lower-confidence value never overwrites a
higher one. -/
theorem c6_bridge_merge_max (docId euuid et1 en1 et2 en2 : String)
    (m1 m2 : Int) (r1 r2 : ℚ) (t1 t2 : Int)
    (tbl : List DocumentEntityRow)
    (habs : tbl.any (sameLinkPair docId euuid) = false) :
    ((link_document_to_entity docId euuid et2 en2 m2 r2 t2
        (link_document_to_entity docId euuid et1 en1 m1 r1 t1
          tbl)).filter (sameLinkPair docId euuid)) =
      [⟨docId, euuid, et1, en1, max m1 m2, max r1 r2, t1⟩] ∧
    m1 ≤ max m1 m2 ∧ m2 ≤ max m1 m2 ∧ r1 ≤ max r1 r2 ∧ r2 ≤ max r1 r2 := by
  have hselfpair :
      sameLinkPair docId euuid
        (⟨docId, euuid, et1, en1, m1, r1, t1⟩ : DocumentEntityRow) =
          true := by
    simp [sameLinkPair]
  have h1 : link_document_to_entity docId euuid et1 en1 m1 r1 t1 tbl =
      ⟨docId, euuid, et1, en1, m1, r1, t1⟩ :: tbl := by
    rw [link_document_to_entity, if_neg (by simp [habs])]
  have hothers : ∀ r ∈ tbl, sameLinkPair docId euuid r = false :=
    fun r hr => by simpa using List.any_eq_false.mp habs r hr
  have h2 : link_document_to_entity docId euuid et2 en2 m2 r2 t2
      (⟨docId, euuid, et1, en1, m1, r1, t1⟩ :: tbl) =
      (⟨docId, euuid, et1, en1, max m1 m2, max r1 r2, t1⟩ :
        DocumentEntityRow) :: tbl := by
    rw [link_document_to_entity,
      if_pos (by simp [List.any_cons, hselfpair])]
    rw [List.map_cons, if_pos hselfpair]
    congr 1
    have hmap := List.map_congr_left
      (l := tbl)
      (f := fun r : DocumentEntityRow =>
        if sameLinkPair docId euuid r then
          { r with
            mention_count := max r.mention_count m2,
            relevance_score := max r.relevance_score r2 }
        else r)
      (g := id)
      (fun r hr => by simp [hothers r hr])
    rw [hmap, List.map_id]
  have hmerged :
      sameLinkPair docId euuid
        (⟨docId, euuid, et1, en1, max m1 m2, max r1 r2, t1⟩ :
          DocumentEntityRow) = true := by
    simp [sameLinkPair]
  have hnil : tbl.filter (sameLinkPair docId euuid) = [] :=
    List.filter_eq_nil_iff.mpr (fun r hr => by simp [hothers r hr])
  refine ⟨?_, le_max_left _ _, le_max_right _ _, le_max_left _ _,
    le_max_right _ _⟩
  rw [h1, h2]
  simp [List.filter_cons, hmerged, hnil]

/-- Witness for C6, the spec's own example: mention counts 1 and 3 with
relevance scores 0.4 and 0.9 merge into a single link with
mention_count 3 and relevance_score 0.9. -/
theorem c6_bridge_merge_max_witness :
    ((link_document_to_entity "doc-1" "ent-1" "Company" "Acme Corp" 3
        (9/10) 0
        (link_document_to_entity "doc-1" "ent-1" "Company" "Acme Corp" 1
          (2/5) 0 [])).filter (sameLinkPair "doc-1" "ent-1")) =
      [⟨"doc-1", "ent-1", "Company", "Acme Corp", 3, 9/10, 0⟩] := by
  have h := (c6_bridge_merge_max "doc-1" "ent-1" "Company" "Acme Corp"
    "Company" "Acme Corp" 1 3 (2/5) (9/10) 0 0 [] rfl).1
  rw [show max (1 : Int) 3 = 3 from by norm_num [max_def],
    show max ((2 : ℚ)/5) (9/10) = 9/10 from by
      rw [max_def]
      norm_num] at h
  exact h

/-- C7 evaluation.  The `document_entities` DDL declares no CHECK
constraint, so a direct INSERT whose `relevance_score` is 1.5 (outside
the documented 0.0-1.0 range) and one whose `mention_count` is 0 (below
the documented minimum 1) both succeed against every constraint the
schema declares: the rows are stored, not rejected at the boundary. -/
theorem c7_out_of_range_link_accepted :
    document_entities_insert outOfRangeLink [fkDoc] [] =
      some [outOfRangeLink] ∧
    outOfRangeLink.relevance_score = 3/2 ∧
    ¬(outOfRangeLink.relevance_score ≤ 1) ∧
    document_entities_insert zeroMentionLink [fkDoc] [outOfRangeLink] =
      some [zeroMentionLink, outOfRangeLink] ∧
    zeroMentionLink.mention_count = 0 := by
  refine ⟨?_, rfl, ?_, ?_, rfl⟩
  · norm_num [document_entities_insert, sameLinkPair, outOfRangeLink,
      fkDoc]
  · norm_num [outOfRangeLink]
  · norm_num [document_entities_insert, sameLinkPair, outOfRangeLink,
      zeroMentionLink, fkDoc]
    intro h
    exact absurd h (by decide)

theorem refIntegrity_applyOp {st : DBState} (h : RefIntegrity st)
    (op : DBOp) : RefIntegrity (applyOp st op) := by
  cases op with
  | insertDocument d =>
    simp only [applyOp]
    by_cases hrej : st.documents.any (fun x => x.id == d.id) ||
        st.documents.any (sameSourceDocument d)
    · rw [if_pos hrej]; exact h
    · rw [if_neg hrej]
      intro r hr
      rcases h r hr with ⟨d0, hd0, hid⟩
      exact ⟨d0, List.mem_cons_of_mem _ hd0, hid⟩
  | insertLink row =>
    simp only [applyOp]
    cases hins : document_entities_insert row st.documents
        st.document_entities with
    | none => exact h
    | some tbl =>
      unfold document_entities_insert at hins
      by_cases hcond : st.documents.any
          (fun d => d.id == row.document_id) &&
          !(st.document_entities.any
            (sameLinkPair row.document_id row.entity_uuid))
      · rw [if_pos hcond] at hins
        injection hins with htbl
        subst htbl
        intro r hr
        rcases List.mem_cons.mp hr with rfl | hr
        · simp only [Bool.and_eq_true] at hcond
          rcases hcond with ⟨hfk, -⟩
          rcases List.any_eq_true.mp hfk with ⟨d0, hd0, hbeq⟩
          exact ⟨d0, hd0, eq_of_beq hbeq⟩
        · exact h r hr
      · rw [if_neg hcond] at hins
        exact absurd hins (by simp)
  | deleteDocument docId =>
    intro r hr
    simp only [applyOp] at hr
    simp only [List.mem_filter, Bool.not_eq_true'] at hr
    rcases hr with ⟨hmem, hne⟩
    rcases h r hmem with ⟨d0, hd0, hid⟩
    refine ⟨d0, ?_, hid⟩
    simp only [applyOp, List.mem_filter, Bool.not_eq_true']
    refine ⟨hd0, ?_⟩
    rw [show (d0.id == docId) = (r.document_id == docId) from by
      rw [hid]]
    exact hne

theorem refIntegrity_foldl {st : DBState} (h : RefIntegrity st)
    (ops : List DBOp) : RefIntegrity (ops.foldl applyOp st) := by
  induction ops generalizing st with
  | nil => exact h
  | cons op rest ih => exact ih (refIntegrity_applyOp h op)

/-- C8.  Deleting a document cascades: the delete removes exactly the
bridge rows whose `document_id` references the deleted document, and
inserts never remove bridge rows.  Consequently, after any sequence of
schema operations starting from the empty database, every bridge row
references an existing document. -/
theorem c8_cascade_integrity (ops : List DBOp) :
    RefIntegrity (runOps ops) ∧
    (∀ (st : DBState) (docId : String),
      (applyOp st (DBOp.deleteDocument docId)).document_entities =
        st.document_entities.filter
          (fun r => !(r.document_id == docId))) ∧
    (∀ (st : DBState) (d : DocumentRow),
      ∀ r ∈ st.document_entities,
        r ∈ (applyOp st (DBOp.insertDocument d)).document_entities) ∧
    (∀ (st : DBState) (row : DocumentEntityRow),
      ∀ r ∈ st.document_entities,
        r ∈ (applyOp st (DBOp.insertLink row)).document_entities) := by
  refine ⟨?_, fun st docId => rfl, ?_, ?_⟩
  · exact refIntegrity_foldl (fun r hr => absurd hr (List.not_mem_nil r))
      ops
  · intro st d r hr
    simp only [applyOp]
    by_cases hrej : st.documents.any (fun x => x.id == d.id) ||
        st.documents.any (sameSourceDocument d)
    · rw [if_pos hrej]; exact hr
    · rw [if_neg hrej]; exact hr
  · intro st row r hr
    simp only [applyOp]
    cases hins : document_entities_insert row st.documents
        st.document_entities with
    | none => exact hr
    | some tbl =>
      unfold document_entities_insert at hins
      by_cases hcond : st.documents.any
          (fun d => d.id == row.document_id) &&
          !(st.document_entities.any
            (sameLinkPair row.document_id row.entity_uuid))
      · rw [if_pos hcond] at hins
        injection hins with htbl
        subst htbl
        exact List.mem_cons_of_mem _ hr
      · rw [if_neg hcond] at hins
        exact absurd hins (by simp)

/-- Witness for C8 at a concrete operation sequence: after inserting a
document, linking it, and deleting it, referential integrity holds (the
bridge table has no dangling row), and an insert does not remove an
existing bridge row. -/
theorem c8_cascade_integrity_witness :
    RefIntegrity
      (runOps [DBOp.insertDocument fkDoc, DBOp.insertLink bridgeLink1,
        DBOp.deleteDocument "doc-1"]) ∧
    bridgeLink1 ∈
      (applyOp ⟨[fkDoc], [bridgeLink1]⟩
        (DBOp.insertDocument emailDocA)).document_entities :=
  ⟨(c8_cascade_integrity
      [DBOp.insertDocument fkDoc, DBOp.insertLink bridgeLink1,
        DBOp.deleteDocument "doc-1"]).1,
   (c8_cascade_integrity []).2.2.1 ⟨[fkDoc], [bridgeLink1]⟩ emailDocA
     bridgeLink1 (by simp)⟩

/-- C9.  Every UPDATE on `documents` passes each matched row through the
`update_documents_updated_at` BEFORE UPDATE trigger, which sets that
row's `updated_at` to the current time regardless of which fields the
SET clause changed (including an embedding backfill), and the trigger
modifies no other field; rows not matched by the UPDATE are unchanged. -/
theorem c9_updated_at_trigger (pred : DocumentRow → Bool)
    (set_clause : DocumentRow → DocumentRow) (now : Int)
    (tbl : List DocumentRow) :
    (∀ d ∈ tbl, pred d = true →
      update_updated_at_column (set_clause d) now ∈
        update_documents pred set_clause now tbl) ∧
    (∀ d ∈ tbl, pred d = false →
      d ∈ update_documents pred set_clause now tbl) ∧
    (∀ x : DocumentRow,
      (update_updated_at_column x now).updated_at = now ∧
      (update_updated_at_column x now).id = x.id ∧
      (update_updated_at_column x now).user_id = x.user_id ∧
      (update_updated_at_column x now).source = x.source ∧
      (update_updated_at_column x now).source_id = x.source_id ∧
      (update_updated_at_column x now).doc_type = x.doc_type ∧
      (update_updated_at_column x now).subject = x.subject ∧
      (update_updated_at_column x now).content = x.content ∧
      (update_updated_at_column x now).content_preview =
        x.content_preview ∧
      (update_updated_at_column x now).metadata = x.metadata ∧
      (update_updated_at_column x now).source_created_at =
        x.source_created_at ∧
      (update_updated_at_column x now).created_at = x.created_at ∧
      (update_updated_at_column x now).vector_embedding =
        x.vector_embedding) := by
  refine ⟨?_, ?_, ?_⟩
  · intro d hd hp
    exact List.mem_map.mpr ⟨d, hd, by rw [if_pos hp]⟩
  · intro d hd hp
    exact List.mem_map.mpr ⟨d, hd, by rw [if_neg (by simp [hp])]⟩
  · intro x
    exact ⟨rfl, rfl, rfl, rfl, rfl, rfl, rfl, rfl, rfl, rfl, rfl, rfl,
      rfl⟩

/-- Witness for C9 at a concrete embedding backfill: updating the row
with id doc-1 to set its embedding puts the backfilled row with
`updated_at = 7` in the table, and the trigger left the new embedding
value intact. -/
theorem c9_updated_at_trigger_witness :
    update_updated_at_column
        ({ fkDoc with vector_embedding := some [1/4] }) 7 ∈
      update_documents (fun d => d.id == "doc-1")
        (fun d => { d with vector_embedding := some [1/4] }) 7 [fkDoc] ∧
    (update_updated_at_column
        ({ fkDoc with vector_embedding := some [1/4] }) 7).updated_at =
      7 ∧
    (update_updated_at_column
        ({ fkDoc with vector_embedding := some [1/4] }) 7).vector_embedding =
      some [1/4] :=
  ⟨(c9_updated_at_trigger (fun d => d.id == "doc-1")
      (fun d => { d with vector_embedding := some [1/4] }) 7 [fkDoc]).1
      fkDoc (by simp) (by simp [fkDoc]),
   ((c9_updated_at_trigger (fun d => d.id == "doc-1")
      (fun d => { d with vector_embedding := some [1/4] }) 7 [fkDoc]).2.2
      ({ fkDoc with vector_embedding := some [1/4] })).1,
   by simp [update_updated_at_column]⟩

theorem insertUniqueTriple_fix {e : EventTriple} {l : List EventTriple}
    (h : l = [] ∨ l = [e]) : insertUniqueTriple e l = [e] := by
  rcases h with rfl | rfl
  · simp [insertUniqueTriple]
  · simp [insertUniqueTriple]

theorem extractCount_le_one (h : HandlerCtl) : ExtractCount h ≤ 1 := by
  obtain ⟨ph, ab⟩ := h
  cases ab <;> cases ph <;> simp [ExtractCount]

theorem pairInv_swap {e : EventTriple} {st : IngestState}
    {hA hB : HandlerCtl} (h : PairInv e st hA hB) : PairInv e st hB hA := by
  obtain ⟨h1, h2, h3, h4, h5, h6⟩ := h
  exact ⟨h1, h2, h3, h5, h4, by rw [h6, Nat.add_comm]⟩

theorem pairInv_step {e : EventTriple} {st : IngestState}
    {hA hB : HandlerCtl} (h : PairInv e st hA hB) :
    PairInv e (handlerStep e st hA).1 (handlerStep e st hA).2 hB := by
  obtain ⟨hdocs, hled, hleddoc, hIA, hIB, hext⟩ := h
  obtain ⟨habrt, hext1, hmark1, hdone1⟩ := hIA
  obtain ⟨b1, b2, b3, b4⟩ := hIB
  cases hph : hA.phase with
  | check =>
    by_cases hmem : e ∈ st.processed_episodes
    · simp only [handlerStep, hph, if_pos hmem]
      have hledE : st.processed_episodes = [e] := by
        rcases hled with h0 | h0
        · rw [h0] at hmem
          exact absurd hmem (List.not_mem_nil e)
        · exact h0
      refine ⟨hdocs, hled, hleddoc,
        ⟨fun _ => ⟨rfl, hledE⟩, ?_, ?_, ?_⟩, ⟨b1, b2, b3, b4⟩, ?_⟩
      · intro hc; simp at hc
      · intro hc; simp at hc
      · intro _ hc; simp at hc
      · have hold : ExtractCount hA = 0 := by
          unfold ExtractCount
          rw [hph]
          cases hA.aborted <;> simp
        show st.extraction_calls = ExtractCount ⟨Phase.done, true⟩ +
          ExtractCount hB
        rw [hext, hold]
        simp [ExtractCount]
    · simp only [handlerStep, hph, if_neg hmem]
      have habF : hA.aborted = false := by
        cases hab2 : hA.aborted
        · rfl
        · have := (habrt hab2).1
          rw [hph] at this
          exact absurd this (by decide)
      refine ⟨hdocs, hled, hleddoc, ⟨?_, ?_, ?_, ?_⟩,
        ⟨b1, b2, b3, b4⟩, ?_⟩
      · intro hc; rw [habF] at hc; simp at hc
      · intro hc; simp at hc
      · intro hc; simp at hc
      · intro hc; simp at hc
      · have hold : ExtractCount hA = 0 := by
          unfold ExtractCount
          rw [hph]
          cases hA.aborted <;> simp
        have hnew : ExtractCount ⟨Phase.store, hA.aborted⟩ = 0 := by
          rw [habF]
          simp [ExtractCount]
        show st.extraction_calls = ExtractCount ⟨Phase.store, hA.aborted⟩ +
          ExtractCount hB
        rw [hext, hold, hnew]
  | store =>
    simp only [handlerStep, hph]
    have habF : hA.aborted = false := by
      cases hab2 : hA.aborted
      · rfl
      · have := (habrt hab2).1
        rw [hph] at this
        exact absurd this (by decide)
    have hdE : insertUniqueTriple e st.documents = [e] :=
      insertUniqueTriple_fix hdocs
    refine ⟨Or.inr hdE, hled, fun _ => hdE, ⟨?_, ?_, ?_, ?_⟩,
      ⟨fun hc => b1 hc, fun _ => hdE, fun _ => hdE,
        fun hd hab2 => ⟨hdE, (b4 hd hab2).2⟩⟩, ?_⟩
    · intro hc; rw [habF] at hc; simp at hc
    · intro _; exact hdE
    · intro hc; simp at hc
    · intro hc; simp at hc
    · have hold : ExtractCount hA = 0 := by
        unfold ExtractCount
        rw [hph, habF]
        simp
      have hnew : ExtractCount ⟨Phase.extract, hA.aborted⟩ = 0 := by
        rw [habF]
        simp [ExtractCount]
      show st.extraction_calls = ExtractCount ⟨Phase.extract, hA.aborted⟩ +
        ExtractCount hB
      rw [hext, hold, hnew]
  | extract =>
    simp only [handlerStep, hph]
    have habF : hA.aborted = false := by
      cases hab2 : hA.aborted
      · rfl
      · have := (habrt hab2).1
        rw [hph] at this
        exact absurd this (by decide)
    have hdE : st.documents = [e] := hext1 hph
    refine ⟨hdocs, hled, hleddoc, ⟨?_, ?_, ?_, ?_⟩,
      ⟨b1, b2, b3, b4⟩, ?_⟩
    · intro hc; rw [habF] at hc; simp at hc
    · intro hc; simp at hc
    · intro _; exact hdE
    · intro hc; simp at hc
    · have hold : ExtractCount hA = 0 := by
        unfold ExtractCount
        rw [hph, habF]
        simp
      have hnew : ExtractCount ⟨Phase.mark, hA.aborted⟩ = 1 := by
        rw [habF]
        simp [ExtractCount]
      show st.extraction_calls + 1 = ExtractCount ⟨Phase.mark, hA.aborted⟩ +
        ExtractCount hB
      rw [hext, hold, hnew]
      omega
  | mark =>
    simp only [handlerStep, hph]
    have habF : hA.aborted = false := by
      cases hab2 : hA.aborted
      · rfl
      · have := (habrt hab2).1
        rw [hph] at this
        exact absurd this (by decide)
    have hdE : st.documents = [e] := hmark1 hph
    have hledE : insertUniqueTriple e st.processed_episodes = [e] :=
      insertUniqueTriple_fix hled
    refine ⟨hdocs, Or.inr hledE, fun _ => hdE, ⟨?_, ?_, ?_, ?_⟩,
      ⟨fun hc => ⟨(b1 hc).1, hledE⟩, b2, b3,
        fun hd hab2 => ⟨(b4 hd hab2).1, hledE⟩⟩, ?_⟩
    · intro hc; rw [habF] at hc; simp at hc
    · intro hc; simp at hc
    · intro hc; simp at hc
    · intro _ _; exact ⟨hdE, hledE⟩
    · have hold : ExtractCount hA = 1 := by
        unfold ExtractCount
        rw [hph, habF]
        simp
      have hnew : ExtractCount ⟨Phase.done, hA.aborted⟩ = 1 := by
        rw [habF]
        simp [ExtractCount]
      show st.extraction_calls = ExtractCount ⟨Phase.done, hA.aborted⟩ +
        ExtractCount hB
      rw [hext, hold, hnew]
  | done =>
    simp only [handlerStep, hph]
    exact ⟨hdocs, hled, hleddoc, ⟨habrt, hext1, hmark1, hdone1⟩,
      ⟨b1, b2, b3, b4⟩, hext⟩

theorem pairInv_concStep {e : EventTriple} {c : ConcState} {who : Bool}
    (h : PairInv e c.st c.h1 c.h2) :
    PairInv e (concStep e c who).st (concStep e c who).h1
      (concStep e c who).h2 := by
  cases who
  · simp only [concStep, Bool.false_eq_true, if_false]
    exact pairInv_swap (pairInv_step (pairInv_swap h))
  · simp only [concStep, if_true]
    exact pairInv_step h

theorem pairInv_foldl {e : EventTriple} (sched : List Bool)
    (c : ConcState) (h : PairInv e c.st c.h1 c.h2) :
    PairInv e (sched.foldl (concStep e) c).st
      (sched.foldl (concStep e) c).h1 (sched.foldl (concStep e) c).h2 := by
  induction sched generalizing c with
  | nil => exact h
  | cons who rest ih => exact ih _ (pairInv_concStep h)

theorem pairInv_runConc (e : EventTriple) (sched : List Bool) :
    PairInv e (runConc e sched).st (runConc e sched).h1
      (runConc e sched).h2 := by
  refine pairInv_foldl sched _ ?_
  refine ⟨Or.inl rfl, Or.inl rfl, ?_, ⟨?_, ?_, ?_, ?_⟩,
    ⟨?_, ?_, ?_, ?_⟩, rfl⟩
  · intro hc; exact absurd hc (by simp)
  · intro hc; exact absurd hc (by decide)
  · intro hc; exact absurd hc (by decide)
  · intro hc; exact absurd hc (by decide)
  · intro hc; exact absurd hc (by decide)
  · intro hc; exact absurd hc (by decide)
  · intro hc; exact absurd hc (by decide)
  · intro hc; exact absurd hc (by decide)
  · intro hc; exact absurd hc (by decide)

theorem ingest_fresh {e : EventTriple} {st : IngestState}
    (hmem : e ∉ st.processed_episodes) :
    ingest e st =
      ⟨insertUniqueTriple e st.processed_episodes,
        insertUniqueTriple e st.documents, st.extraction_calls + 1⟩ := by
  unfold ingest
  rw [show handlerRun e 4 (st, ⟨Phase.check, false⟩) =
      handlerRun e 3 (handlerStep e st ⟨Phase.check, false⟩) from rfl,
    show handlerStep e st ⟨Phase.check, false⟩ =
      (st, ⟨Phase.store, false⟩) from by simp [handlerStep, hmem]]
  rfl

theorem ingest_dup {e : EventTriple} {st : IngestState}
    (hmem : e ∈ st.processed_episodes) : ingest e st = st := by
  unfold ingest
  rw [show handlerRun e 4 (st, ⟨Phase.check, false⟩) =
      handlerRun e 3 (handlerStep e st ⟨Phase.check, false⟩) from rfl,
    show handlerStep e st ⟨Phase.check, false⟩ =
      (st, ⟨Phase.done, true⟩) from by simp [handlerStep, hmem]]
  rfl

theorem ingestN_eq (e : EventTriple) (n : Nat) (hn : 1 ≤ n) :
    ingestN e n = ⟨[e], [e], 1⟩ := by
  induction n with
  | zero => omega
  | succ m ih =>
    by_cases hm : m = 0
    · subst hm
      show ingest e (ingestN e 0) = _
      rw [show ingestN e 0 = ⟨[], [], 0⟩ from rfl,
        ingest_fresh (by simp)]
      simp [insertUniqueTriple]
    · have ih2 := ih (by omega)
      show ingest e (ingestN e m) = _
      rw [ih2, ingest_dup (by simp)]

/-- C1 (amended).  For every event, the Document and ProcessedEvent rows
are deduplicated by the unique-constraint inserts: under EVERY
interleaving of two concurrent deliveries that runs both handlers to
completion, exactly one Document row and one ProcessedEvent row exist,
and `n` sequential `ingest` calls leave exactly one Document, one
ProcessedEvent, and exactly one extraction call.  However, because the
handler guards extraction with a separate check-then-act sequence (check
`processed_episodes`, process, then mark), concurrent deliveries may
each call extraction: the bound is two calls for two deliveries, not
one (see the counterexample). -/
theorem c1_ingest_exactly_once (e : EventTriple) (sched : List Bool)
    (n : Nat) (hn : 1 ≤ n)
    (hd1 : (runConc e sched).h1.phase = Phase.done)
    (_hd2 : (runConc e sched).h2.phase = Phase.done) :
    (runConc e sched).st.documents = [e] ∧
    (runConc e sched).st.processed_episodes = [e] ∧
    (runConc e sched).st.extraction_calls ≤ 2 ∧
    ingestN e n = ⟨[e], [e], 1⟩ := by
  obtain ⟨hdocs, hled, hleddoc, hI1, hI2, hext⟩ := pairInv_runConc e sched
  obtain ⟨a1, -, -, a4⟩ := hI1
  have key : (runConc e sched).st.processed_episodes = [e] ∧
      (runConc e sched).st.documents = [e] := by
    cases hab : (runConc e sched).h1.aborted
    · have hdone := a4 hd1 hab
      exact ⟨hdone.2, hdone.1⟩
    · have habort := a1 hab
      exact ⟨habort.2, hleddoc habort.2⟩
  refine ⟨key.2, key.1, ?_, ingestN_eq e n hn⟩
  rw [hext]
  have l1 := extractCount_le_one (runConc e sched).h1
  have l2 := extractCount_le_one (runConc e sched).h2
  omega

/-- Counterexample to C1 as stated: under the interleaving in which both
deliveries of the same event pass the duplicate check before either
marks the event processed, BOTH perform the extraction call — two
extraction calls for one event — even though exactly one Document and
one ProcessedEvent row result.  The dedup around extraction is a
separate check-then-act sequence, not an atomic
insert-or-detect-conflict, exactly the race the spec warns about. -/
theorem c1_counterexample :
    (runConc dupEvent raceSchedule).st.extraction_calls = 2 ∧
    (runConc dupEvent raceSchedule).st.documents = [dupEvent] ∧
    (runConc dupEvent raceSchedule).st.processed_episodes = [dupEvent] ∧
    (runConc dupEvent raceSchedule).h1.phase = Phase.done ∧
    (runConc dupEvent raceSchedule).h2.phase = Phase.done :=
  ⟨rfl, rfl, rfl, rfl, rfl⟩

/-- Witness for C1 at the concrete duplicated webhook event: both
handlers complete under the racing interleaving, leaving one Document,
one ProcessedEvent, at most two extraction calls; and two sequential
ingest calls leave one Document, one ProcessedEvent, one extraction. -/
theorem c1_ingest_exactly_once_witness :
    (runConc dupEvent raceSchedule).st.documents = [dupEvent] ∧
    (runConc dupEvent raceSchedule).st.processed_episodes = [dupEvent] ∧
    (runConc dupEvent raceSchedule).st.extraction_calls ≤ 2 ∧
    ingestN dupEvent 2 = ⟨[dupEvent], [dupEvent], 1⟩ :=
  c1_ingest_exactly_once dupEvent raceSchedule 2 (by decide) rfl rfl

end KG
